import Mathlib

/-!
Shallow embedding of the tabular cleaning core of the 5Day_Kaggle_Agent
repository (src/data_cleaner_agent/data_cleaner.py and the clean_data_temp
resolvers in src/remote_agent/server.py and src/preprocess_data_agent/server.py).

A cell is a CSV value: a number (pandas parses numeric columns to int64 or
float64; we model both with ℚ), a string, or missing (NaN), modelled as
Option Cell with none = missing. A row is the list of cells in column order.
-/

inductive Cell : Type
  | num (q : ℚ)
  | str (s : String)
deriving DecidableEq

abbrev Row := List (Option Cell)

/-- A parsed data frame: the header (column names in order) and the rows. -/
structure Dataset where
  cols : List String
  rows : List Row
deriving DecidableEq

/-- Value of column i in a row (out-of-range reads as missing). -/
def cellAt (r : Row) (i : Nat) : Option Cell := r.getD i none

/-- Number of missing (null) cells in column i: df[column].isnull().sum(). -/
def missingAt (rows : List Row) (i : Nat) : Nat :=
  (rows.filter fun r => (cellAt r i).isNone).length

/-- df.dropna(subset=[column]): keep the rows whose column i is present. -/
def dropMissing (rows : List Row) (i : Nat) : List Row :=
  rows.filter fun r => (cellAt r i).isSome

/-- The non-null values of column i, in row order: df[column].dropna(). -/
def colVals (rows : List Row) (i : Nat) : List Cell :=
  rows.filterMap fun r => cellAt r i

/-- The numeric values of column i, in row order. -/
def colNums (rows : List Row) (i : Nat) : List ℚ :=
  rows.filterMap fun r =>
    match cellAt r i with
    | some (Cell.num q) => some q
    | _ => none

/-- pd.api.types.is_numeric_dtype for column i: read_csv assigns a numeric
dtype (int64/float64) exactly when every non-empty entry of the column parses
as a number; an all-missing column is float64, hence numeric. Dropping rows
never re-infers dtypes, so the check is against the originally parsed rows. -/
def isNumericCol (rows : List Row) (i : Nat) : Bool :=
  rows.all fun r =>
    match cellAt r i with
    | some (Cell.str _) => false
    | _ => true

/-- Series.median(): middle element of the sorted non-null values, or the
mean of the two middle elements for an even count; NaN (none) when there are
no values. -/
def median (xs : List ℚ) : Option ℚ :=
  let s := List.insertionSort (· ≤ ·) xs
  if s.length = 0 then none
  else if s.length % 2 = 1 then s.get? (s.length / 2)
  else
    match s.get? (s.length / 2 - 1), s.get? (s.length / 2) with
    | some a, some b => some ((a + b) / 2)
    | _, _ => none

/-- Multiplicity of a value among the non-null values of a column. -/
def countVal (vs : List Cell) (v : Cell) : Nat :=
  (vs.filter fun w => w = v).length

/-- Order used by pandas to sort the modes; numbers before strings. -/
def cellLe (a b : Cell) : Bool :=
  match a, b with
  | Cell.num x, Cell.num y => decide (x ≤ y)
  | Cell.num _, Cell.str _ => true
  | Cell.str _, Cell.num _ => false
  | Cell.str x, Cell.str y => decide (x ≤ y)

/-- Series.mode()[0]: the smallest most-frequent non-null value; none when
the column has no non-null value at all (pandas: mode() is then the empty
series and indexing it with [0] raises KeyError). -/
def modeVal (vs : List Cell) : Option Cell :=
  let cands := vs.eraseDups
  let maxC := cands.foldl (fun acc v => Nat.max acc (countVal vs v)) 0
  (cands.filter fun v => countVal vs v = maxC).foldl
    (fun acc v =>
      match acc with
      | none => some v
      | some a => some (if cellLe v a then v else a)) none

/-- Series.fillna(v) restricted to column i: replace each missing cell of
column i by v, leaving every other cell unchanged. -/
def fillMissing (rows : List Row) (i : Nat) (v : Cell) : List Row :=
  rows.map fun r => if (cellAt r i).isNone then r.set i v else r

/-- df.drop_duplicates() keeps the first occurrence of every row value;
pandas compares whole rows with NaN equal to NaN, which is plain equality
of Row here. seen accumulates the row values already kept. -/
def dropDupsAux (seen : List Row) : List Row → List Row
  | [] => []
  | r :: rs => if r ∈ seen then dropDupsAux seen rs else r :: dropDupsAux (r :: seen) rs

/-- df.drop_duplicates(). -/
def drop_duplicates (rows : List Row) : List Row :=
  dropDupsAux [] rows

instance {ε α : Type} [DecidableEq ε] [DecidableEq α] : DecidableEq (Except ε α) := fun a b =>
  match a, b with
  | .ok x, .ok y =>
      if h : x = y then isTrue (by rw [h]) else
        isFalse (by intro hc; exact h (Except.ok.inj hc))
  | .error e, .error f =>
      if h : e = f then isTrue (by rw [h]) else
        isFalse (by intro hc; exact h (Except.error.inj hc))
  | .ok _, .error _ => isFalse (by intro hc; exact Except.noConfusion hc)
  | .error _, .ok _ => isFalse (by intro hc; exact Except.noConfusion hc)

/-- One entry of the actions_taken list built by
data_cleaner.handle_missing_values: either
{"column", "action": "removed_rows", "reason", "removed_rows"} or
{"column", "action": "filled", "filled_values", "method"}. -/
inductive DCAction : Type
  | removedRows (column : String) (reason : String) (removed_rows : Nat)
  | filled (column : String) (filled_values : Nat) (method : String)
deriving DecidableEq

/-- The "column" field of an action entry. -/
def DCAction.column : DCAction → String
  | .removedRows c _ _ => c
  | .filled c _ _ => c

/-- Working state of the column loop of handle_missing_values: the live
df_copy rows and the actions_taken list so far. -/
structure DCState where
  rows : List Row
  actions : List DCAction
deriving DecidableEq

/-- Body of the per-column loop of data_cleaner.handle_missing_values,
lines 83-122. origRows are the rows of the df parsed at entry: the dtype
check and, crucially, the denominator len(df) of missing_percentage refer
to it, while missing_count, median and mode are computed on the live
df_copy. missing_percentage > 5 with missing_percentage =
(missing_count / len(df)) * 100 is the exact rational comparison
20 * missing_count > len(df). A non-numeric column whose live values are
all missing makes mode()[0] raise an uncaught KeyError, modelled as
Except.error. -/
def hmStep (origRows : List Row) (crit : List String) (cols : List String)
    (st : DCState) (i : Nat) : Except String DCState :=
  let name := cols.getD i ""
  let m := missingAt st.rows i
  if m = 0 then Except.ok st
  else if name ∈ crit then
    Except.ok ⟨dropMissing st.rows i,
      st.actions ++ [DCAction.removedRows name "critical_column" m]⟩
  else if 20 * m > origRows.length then
    if isNumericCol origRows i then
      Except.ok ⟨(match median (colNums st.rows i) with
          | none => st.rows
          | some q => fillMissing st.rows i (Cell.num q)),
        st.actions ++ [DCAction.filled name m "median"]⟩
    else
      match modeVal (colVals st.rows i) with
      | none => Except.error "KeyError: 0"
      | some v =>
          Except.ok ⟨fillMissing st.rows i v,
            st.actions ++ [DCAction.filled name m "mode"]⟩
  else
    Except.ok ⟨dropMissing st.rows i,
      st.actions ++ [DCAction.removedRows name "low_threshold" m]⟩

/-- Runs hmStep over a list of column indices, stopping at an exception. -/
def hmRun (origRows : List Row) (crit : List String) (cols : List String)
    (est : Except String DCState) (idxs : List Nat) : Except String DCState :=
  idxs.foldl (fun acc i => acc.bind fun st => hmStep origRows crit cols st i) est

/-- The whole column loop of handle_missing_values, started on a fresh copy
of the parsed rows. -/
def hmPass (origRows : List Row) (crit : List String) (cols : List String) :
    Except String DCState :=
  hmRun origRows crit cols (Except.ok ⟨origRows, []⟩) (List.range cols.length)

/-- Variant of hmStep that follows the spec's words for the missing-fraction
denominator (spec section 4.3: the denominator is the row count of the
dataset as currently reduced by prior columns' row-drops within this same
pass, i.e. the live row count st.rows.length). Used only to compare the
spec's reading against the code. -/
def hmStepLiveSpec (origRows : List Row) (crit : List String) (cols : List String)
    (st : DCState) (i : Nat) : Except String DCState :=
  let name := cols.getD i ""
  let m := missingAt st.rows i
  if m = 0 then Except.ok st
  else if name ∈ crit then
    Except.ok ⟨dropMissing st.rows i,
      st.actions ++ [DCAction.removedRows name "critical_column" m]⟩
  else if 20 * m > st.rows.length then
    if isNumericCol origRows i then
      Except.ok ⟨(match median (colNums st.rows i) with
          | none => st.rows
          | some q => fillMissing st.rows i (Cell.num q)),
        st.actions ++ [DCAction.filled name m "median"]⟩
    else
      match modeVal (colVals st.rows i) with
      | none => Except.error "KeyError: 0"
      | some v =>
          Except.ok ⟨fillMissing st.rows i v,
            st.actions ++ [DCAction.filled name m "mode"]⟩
  else
    Except.ok ⟨dropMissing st.rows i,
      st.actions ++ [DCAction.removedRows name "low_threshold" m]⟩

/-- The column loop again, under the spec's live-denominator reading. -/
def hmPassLiveSpec (origRows : List Row) (crit : List String) (cols : List String) :
    Except String DCState :=
  (List.range cols.length).foldl
    (fun acc i => acc.bind fun st => hmStepLiveSpec origRows crit cols st i)
    (Except.ok ⟨origRows, []⟩)

/-- Result dictionary of handle_missing_values. -/
structure HMResult where
  status : String
  cleaned_data : Option Dataset
  actions_taken : List DCAction
  error_message : Option String
deriving DecidableEq

/-- data_cleaner.handle_missing_values. The input Option Dataset is the
outcome of pd.read_csv (none = parse failure, the only exception the
function catches); critical_columns = none models the Python default None,
replaced by the empty list. The Except layer models exceptions that escape
the function (nothing after read_csv is guarded by a try). -/
def handle_missing_values (input : Option Dataset)
    (critical_columns : Option (List String)) : Except String HMResult :=
  match input with
  | none => Except.ok ⟨"error", none, [], some "Failed to parse CSV data"⟩
  | some d =>
      (hmPass d.rows (critical_columns.getD []) d.cols).map fun st =>
        ⟨"success", some ⟨d.cols, st.rows⟩, st.actions, none⟩

/-- df[column].nunique(): number of distinct non-null values. -/
def nuniqueAt (rows : List Row) (i : Nat) : Nat :=
  (colVals rows i).eraseDups.length

/-- str(df[column].dtype) as produced by read_csv: object for non-numeric
or empty frames, int64 for an all-present integer column, float64 otherwise
(missing values or fractional values force float64). -/
def dtypeStr (rows : List Row) (i : Nat) : String :=
  if rows.length = 0 then "object"
  else if isNumericCol rows i = false then "object"
  else if rows.all (fun r =>
      match cellAt r i with
      | some (Cell.num q) => q.den = 1
      | _ => false) then "int64"
  else "float64"

/-- Result dictionary of analyze_data; the per-column dictionaries are
association lists in column order. -/
structure AnalyzeResult where
  status : String
  total_rows : Nat
  total_columns : Nat
  unique_values : List (String × Nat)
  missing_values : List (String × Nat)
  data_types : List (String × String)
  error_message : Option String
deriving DecidableEq

/-- data_cleaner.analyze_data: only pd.read_csv can fail (caught and turned
into the error dictionary); the profiling loop is total. -/
def analyze_data (input : Option Dataset) : AnalyzeResult :=
  match input with
  | none => ⟨"error", 0, 0, [], [], [], some "Failed to parse CSV data"⟩
  | some d =>
      ⟨"success", d.rows.length, d.cols.length,
        (List.range d.cols.length).map fun i => (d.cols.getD i "", nuniqueAt d.rows i),
        (List.range d.cols.length).map fun i => (d.cols.getD i "", missingAt d.rows i),
        (List.range d.cols.length).map fun i => (d.cols.getD i "", dtypeStr d.rows i),
        none⟩

/-- Result dictionary of clean_duplicates. -/
structure DedupResult where
  status : String
  cleaned_data : Option Dataset
  removed_duplicates : Nat
  error_message : Option String
deriving DecidableEq

/-- data_cleaner.clean_duplicates: parse, drop_duplicates, report the count
difference. -/
def clean_duplicates (input : Option Dataset) : DedupResult :=
  match input with
  | none => ⟨"error", none, 0, some "Failed to parse CSV data"⟩
  | some d =>
      ⟨"success", some ⟨d.cols, drop_duplicates d.rows⟩,
        d.rows.length - (drop_duplicates d.rows).length, none⟩

/-- Result dictionary of save_csv. -/
structure SaveResult where
  status : String
  message : Option String
  error_message : Option String
deriving DecidableEq

/-- data_cleaner.save_csv: the file write is external I O, modelled by its
outcome; the whole body is inside try/except, so every failure becomes the
error dictionary. -/
def save_csv (writeOutcome : Except String Unit) (filename : String) : SaveResult :=
  match writeOutcome with
  | Except.ok _ => ⟨"success", some ("Data saved to " ++ filename), none⟩
  | Except.error e => ⟨"error", none, some ("Failed to save file: " ++ e)⟩

/-- One entry of the actions_taken list built by the servers'
clean_data_temp (remote_agent/server.py and preprocess_data_agent/server.py):
{"column", "action": "removed_rows", "count"} or
{"column", "action": "filled", "method", "count"} - note there is no
"reason" field in this shape. -/
inductive SrvAction : Type
  | removedRows (column : String) (count : Nat)
  | filled (column : String) (method : String) (count : Nat)
deriving DecidableEq

/-- The "column" field of a server action entry. -/
def SrvAction.column : SrvAction → String
  | .removedRows c _ => c
  | .filled c _ _ => c

/-- Working state of the column loop of clean_data_temp. -/
structure SrvState where
  rows : List Row
  actions : List SrvAction
deriving DecidableEq

/-- Body of the per-column loop of clean_data_temp (remote_agent/server.py
lines 42-62, identically preprocess_data_agent/server.py lines 52-72).
Unlike hmStep, the denominator of missing_percentage is len(df_clean), the
live row count st.rows.length. Dtypes are still those assigned by read_csv
on the original rows (drop_duplicates and dropna never re-infer them). -/
def srvStep (origRows : List Row) (crit : List String) (cols : List String)
    (st : SrvState) (i : Nat) : Except String SrvState :=
  let name := cols.getD i ""
  let m := missingAt st.rows i
  if m = 0 then Except.ok st
  else if name ∈ crit then
    Except.ok ⟨dropMissing st.rows i,
      st.actions ++ [SrvAction.removedRows name m]⟩
  else if 20 * m > st.rows.length then
    if isNumericCol origRows i then
      Except.ok ⟨(match median (colNums st.rows i) with
          | none => st.rows
          | some q => fillMissing st.rows i (Cell.num q)),
        st.actions ++ [SrvAction.filled name "median" m]⟩
    else
      match modeVal (colVals st.rows i) with
      | none => Except.error "KeyError: 0"
      | some v =>
          Except.ok ⟨fillMissing st.rows i v,
            st.actions ++ [SrvAction.filled name "mode" m]⟩
  else
    Except.ok ⟨dropMissing st.rows i,
      st.actions ++ [SrvAction.removedRows name m]⟩

/-- Runs srvStep over a list of column indices. -/
def srvRun (origRows : List Row) (crit : List String) (cols : List String)
    (est : Except String SrvState) (idxs : List Nat) : Except String SrvState :=
  idxs.foldl (fun acc i => acc.bind fun st => srvStep origRows crit cols st i) est

/-- The whole missing-value loop of clean_data_temp, started on the
deduplicated rows. -/
def srvPass (origRows : List Row) (crit : List String) (cols : List String)
    (startRows : List Row) : Except String SrvState :=
  srvRun origRows crit cols (Except.ok ⟨startRows, []⟩) (List.range cols.length)

/-- The summary block of clean_data_temp's success dictionary. -/
structure SrvSummary where
  original_rows : Nat
  final_rows : Nat
  duplicates_removed : Nat
  actions_taken : List SrvAction
deriving DecidableEq

/-- Result dictionary of clean_data_temp (public_url and file_id, which come
from uuid and the file server, are external and omitted). -/
structure SrvResult where
  status : String
  summary : Option SrvSummary
  error_message : Option String
deriving DecidableEq

/-- clean_data_temp from remote_agent/server.py: load, drop_duplicates, run
the missing-value loop, build the summary. The whole body is inside a
try/except, so the KeyError from mode()[0] on a degenerate column is caught
here and rendered as the error dictionary. critical_columns = none models
the Python default (the empty list in remote_agent; preprocess_data_agent
instead defaults to [customer_id, product_id] but is otherwise identical). -/
def clean_data_temp (input : Option Dataset)
    (critical_columns : Option (List String)) : SrvResult :=
  match input with
  | none => ⟨"error", none, some "Failed to load CSV data"⟩
  | some d =>
      let dd := drop_duplicates d.rows
      match srvPass d.rows (critical_columns.getD []) d.cols dd with
      | Except.error e => ⟨"error", none, some e⟩
      | Except.ok st =>
          ⟨"success",
            some ⟨d.rows.length, st.rows.length,
              d.rows.length - dd.length, st.actions⟩, none⟩

/-- Concrete 20-row, 2-column dataset: column A (critical in the tests
below) is missing in the first row only; column B is a text column missing
in the last row only. -/
def rows20 : List Row :=
  [[none, some (Cell.str "x")]] ++
    List.replicate 18 [some (Cell.num 1), some (Cell.str "x")] ++
    [[some (Cell.num 1), none]]

/-- Header for rows20. -/
def cols20 : List String := ["A", "B"]

/-- Concrete dataset: both columns are missing exactly in the first row, so
dropping the rows with missing A also removes every missing B. -/
def dC7 : Dataset := ⟨["A", "B"], [[none, none], [some (Cell.num 1), some (Cell.num 2)]]⟩

/-- What handle_missing_values returns on dC7 with critical A. -/
def resC7 : HMResult :=
  ⟨"success", some ⟨["A", "B"], [[some (Cell.num 1), some (Cell.num 2)]]⟩,
    [DCAction.removedRows "A" "critical_column" 1], none⟩

/-- Concrete dataset: B is a text column whose only value sits in the row
that critical handling of A removes, leaving B all-missing but non-numeric
when it is visited. -/
def dC8 : Dataset := ⟨["A", "B"], [[none, some (Cell.str "x")], [some (Cell.num 1), none]]⟩

/-- One-row, one-column dataset with nothing to clean. -/
def dW6 : Dataset := ⟨["x"], [[some (Cell.num 1)]]⟩

/-- What handle_missing_values returns on dW6. -/
def resW9 : HMResult := ⟨"success", some dW6, [], none⟩

/-- Twenty rows, one numeric column with exactly one missing value: the
missing fraction is exactly 5 percent. -/
def rowsW3 : List Row := List.replicate 19 [some (Cell.num 1)] ++ [[none]]

section ListHelpers

variable {α : Type}

/-- getD at an index other than the one written by set is unchanged. -/
theorem getD_set_ne (l : List α) (v d : α) :
    ∀ (i j : Nat), i ≠ j → (l.set i v).getD j d = l.getD j d := by
  induction l with
  | nil => intro i j _; cases i <;> rfl
  | cons x xs ih =>
      intro i j hij
      cases i with
      | zero =>
          cases j with
          | zero => exact absurd rfl hij
          | succ j => rfl
      | succ i =>
          cases j with
          | zero => rfl
          | succ j =>
              have : i ≠ j := fun h => hij (by rw [h])
              simpa [List.set, List.getD] using ih i j this

/-- A filter that loses nothing accepts every element. -/
theorem all_of_length_filter_eq (p : α → Bool) :
    ∀ l : List α, (l.filter p).length = l.length → ∀ a ∈ l, p a = true := by
  intro l
  induction l with
  | nil => intro _ a ha; cases ha
  | cons x xs ih =>
      intro hlen a ha
      by_cases hx : p x = true
      · rcases List.mem_cons.mp ha with rfl | ha'
        · exact hx
        · exact ih (by simpa [List.filter, hx] using hlen) a ha'
      · exfalso
        have hfe : (List.filter p (x :: xs)).length = (List.filter p xs).length := by
          simp [List.filter_cons, hx]
        rw [hfe, List.length_cons] at hlen
        have hle := List.length_filter_le p xs
        omega

/-- Mapping then filtering keeps at most as many elements as filtering,
provided the map can only turn accepted elements into accepted ones. -/
theorem length_filter_map_le (p : α → Bool) (f : α → α)
    (hf : ∀ a, p (f a) = true → p a = true) :
    ∀ l : List α, ((l.map f).filter p).length ≤ (l.filter p).length := by
  intro l
  induction l with
  | nil => simp
  | cons x xs ih =>
      rw [List.map_cons, List.filter_cons, List.filter_cons]
      by_cases hfx : p (f x) = true
      · have hx := hf x hfx
        rw [if_pos hfx, if_pos hx, List.length_cons, List.length_cons]
        exact Nat.succ_le_succ ih
      · rw [if_neg hfx]
        by_cases hx : p x = true
        · rw [if_pos hx, List.length_cons]
          exact Nat.le_succ_of_le ih
        · rw [if_neg hx]
          exact ih

end ListHelpers

section DedupLemmas

/-- Everything dropDupsAux keeps comes from the input, in input order. -/
theorem dropDupsAux_sublist :
    ∀ (l seen : List Row), List.Sublist (dropDupsAux seen l) l := by
  intro l
  induction l with
  | nil => intro seen; exact List.Sublist.refl _
  | cons x xs ih =>
      intro seen
      by_cases hx : x ∈ seen
      · rw [dropDupsAux, if_pos hx]
        exact (ih seen).cons x
      · rw [dropDupsAux, if_neg hx]
        exact (ih (x :: seen)).cons₂ x

/-- Membership in the aux dedup: kept iff present and not already seen. -/
theorem mem_dropDupsAux :
    ∀ (l seen : List Row) (a : Row), a ∈ dropDupsAux seen l ↔ a ∈ l ∧ a ∉ seen := by
  intro l
  induction l with
  | nil => intro seen a; simp [dropDupsAux]
  | cons x xs ih =>
      intro seen a
      by_cases hx : x ∈ seen
      · rw [dropDupsAux, if_pos hx, ih]
        constructor
        · rintro ⟨hal, hans⟩; exact ⟨List.mem_cons_of_mem x hal, hans⟩
        · rintro ⟨hax, hans⟩
          rcases List.mem_cons.mp hax with rfl | hal
          · exact absurd hx hans
          · exact ⟨hal, hans⟩
      · rw [dropDupsAux, if_neg hx]
        constructor
        · intro ha
          rcases List.mem_cons.mp ha with rfl | ha'
          · exact ⟨List.mem_cons_self a xs, hx⟩
          · rcases (ih (x :: seen) a).mp ha' with ⟨hal, hans⟩
            exact ⟨List.mem_cons_of_mem x hal,
              fun hs => hans (List.mem_cons_of_mem x hs)⟩
        · rintro ⟨hax, hans⟩
          by_cases hax' : a = x
          · subst hax'; exact List.mem_cons_self a _
          · rcases List.mem_cons.mp hax with rfl | hal
            · exact absurd rfl hax'
            · exact List.mem_cons_of_mem x ((ih (x :: seen) a).mpr
                ⟨hal, fun hs => (List.mem_cons.mp hs).elim hax' hans⟩)

/-- The aux dedup never keeps a value twice. -/
theorem dropDupsAux_nodup : ∀ (l seen : List Row), (dropDupsAux seen l).Nodup := by
  intro l
  induction l with
  | nil => intro seen; simp [dropDupsAux]
  | cons x xs ih =>
      intro seen
      by_cases hx : x ∈ seen
      · simpa [dropDupsAux, hx] using ih seen
      · rw [dropDupsAux, if_neg hx]
        refine List.nodup_cons.mpr ⟨fun hmem => ?_, ih (x :: seen)⟩
        exact ((mem_dropDupsAux xs (x :: seen) x).mp hmem).2 (List.mem_cons_self x seen)

/-- On a duplicate-free input disjoint from seen, the aux dedup is the
identity. -/
theorem dropDupsAux_eq_self :
    ∀ (l seen : List Row), l.Nodup → (∀ a ∈ l, a ∉ seen) → dropDupsAux seen l = l := by
  intro l
  induction l with
  | nil => intro seen _ _; rfl
  | cons x xs ih =>
      intro seen hnd hdisj
      have hx : x ∉ seen := hdisj x (List.mem_cons_self x xs)
      rw [dropDupsAux, if_neg hx]
      have hnd' := List.nodup_cons.mp hnd
      refine congrArg (x :: ·) (ih (x :: seen) hnd'.2 ?_)
      intro a ha hs
      rcases List.mem_cons.mp hs with rfl | hs'
      · exact hnd'.1 ha
      · exact hdisj a (List.mem_cons_of_mem x ha) hs'

/-- Keep-first characterisation: appending one row keeps it iff its value
has not occurred before. -/
theorem dropDupsAux_append :
    ∀ (l seen : List Row) (r : Row), dropDupsAux seen (l ++ [r]) =
      if r ∈ seen ∨ r ∈ l then dropDupsAux seen l else dropDupsAux seen l ++ [r] := by
  intro l
  induction l with
  | nil =>
      intro seen r
      by_cases hr : r ∈ seen <;> simp [dropDupsAux, hr]
  | cons x xs ih =>
      intro seen r
      by_cases hx : x ∈ seen
      · have hiff : (r ∈ seen ∨ r ∈ xs) ↔ (r ∈ seen ∨ r ∈ x :: xs) := by
          constructor
          · rintro (h | h)
            · exact Or.inl h
            · exact Or.inr (List.mem_cons_of_mem x h)
          · rintro (h | h)
            · exact Or.inl h
            · rcases List.mem_cons.mp h with rfl | h'
              · exact Or.inl hx
              · exact Or.inr h'
        have hdd : dropDupsAux seen (x :: xs) = dropDupsAux seen xs := by
          rw [dropDupsAux, if_pos hx]
        rw [List.cons_append, dropDupsAux, if_pos hx, ih, hdd]
        by_cases hc : r ∈ seen ∨ r ∈ x :: xs
        · rw [if_pos (hiff.mpr hc), if_pos hc]
        · rw [if_neg (fun h => hc (hiff.mp h)), if_neg hc]
      · have hiff : (r ∈ x :: seen ∨ r ∈ xs) ↔ (r ∈ seen ∨ r ∈ x :: xs) := by
          constructor
          · rintro (h | h)
            · rcases List.mem_cons.mp h with rfl | h'
              · exact Or.inr (List.mem_cons_self r xs)
              · exact Or.inl h'
            · exact Or.inr (List.mem_cons_of_mem x h)
          · rintro (h | h)
            · exact Or.inl (List.mem_cons_of_mem x h)
            · rcases List.mem_cons.mp h with rfl | h'
              · exact Or.inl (List.mem_cons_self r seen)
              · exact Or.inr h'
        have hdd : dropDupsAux seen (x :: xs) = x :: dropDupsAux (x :: seen) xs := by
          rw [dropDupsAux, if_neg hx]
        rw [List.cons_append, dropDupsAux, if_neg hx, ih (x :: seen) r, hdd]
        by_cases hc : r ∈ seen ∨ r ∈ x :: xs
        · rw [if_pos (hiff.mpr hc), if_pos hc]
        · rw [if_neg (fun h => hc (hiff.mp h)), if_neg hc, List.cons_append]

/-- drop_duplicates is the identity on its own output. -/
theorem drop_duplicates_idem (rows : List Row) :
    drop_duplicates (drop_duplicates rows) = drop_duplicates rows := by
  unfold drop_duplicates
  exact dropDupsAux_eq_self _ [] (dropDupsAux_nodup rows []) (by simp)

end DedupLemmas

section CellLemmas

/-- Filling column i never adds rows. -/
theorem length_fillMissing (rows : List Row) (i : Nat) (v : Cell) :
    (fillMissing rows i v).length = rows.length :=
  List.length_map rows _

/-- Dropping the rows missing column i is a sublist operation. -/
theorem dropMissing_sublist (rows : List Row) (i : Nat) :
    List.Sublist (dropMissing rows i) rows :=
  List.filter_sublist rows

/-- Null counts only shrink along a sublist. -/
theorem missingAt_sublist_le {rows' rows : List Row} (h : List.Sublist rows' rows)
    (j : Nat) : missingAt rows' j ≤ missingAt rows j :=
  (h.filter _).length_le

/-- Filling column i cannot create a null anywhere. -/
theorem missingAt_fillMissing_le (rows : List Row) (i : Nat) (v : Cell) (j : Nat) :
    missingAt (fillMissing rows i v) j ≤ missingAt rows j := by
  refine length_filter_map_le _ _ ?_ rows
  intro r h
  by_cases hcond : (cellAt r i).isNone = true
  · rw [if_pos hcond] at h
    by_cases hij : i = j
    · subst hij; exact hcond
    · have : cellAt (r.set i v) j = cellAt r j := getD_set_ne r v none i j hij
      rwa [this] at h
  · rwa [if_neg hcond] at h

/-- A column counted entirely missing is null in every row. -/
theorem cellAt_eq_none_of_missingAt_eq_length {rows : List Row} {i : Nat}
    (h : missingAt rows i = rows.length) : ∀ r ∈ rows, cellAt r i = none := by
  intro r hr
  have := all_of_length_filter_eq (fun r => (cellAt r i).isNone) rows h r hr
  exact Option.isNone_iff_eq_none.mp this

/-- An all-null column contributes no numeric values. -/
theorem colNums_eq_nil {rows : List Row} {i : Nat}
    (h : ∀ r ∈ rows, cellAt r i = none) : colNums rows i = [] := by
  induction rows with
  | nil => rfl
  | cons r rs ih =>
      have hr := h r (List.mem_cons_self r rs)
      have hrest : ∀ r' ∈ rs, cellAt r' i = none :=
        fun r' hr' => h r' (List.mem_cons_of_mem r hr')
      simp only [colNums, List.filterMap_cons, hr]
      exact ih hrest

/-- The median of no values is NaN. -/
theorem median_nil : median [] = none := rfl

end CellLemmas

section HmStepLemmas

variable {o : List Row} {c cs : List String} {st st' : DCState} {i : Nat}

/-- A column with no live nulls is skipped. -/
theorem hmStep_of_missing_zero (h0 : missingAt st.rows i = 0) :
    hmStep o c cs st i = Except.ok st := by
  simp only [hmStep]
  rw [if_pos h0]

/-- Critical branch of handle_missing_values. -/
theorem hmStep_critical (hm : missingAt st.rows i ≠ 0) (hc : cs.getD i "" ∈ c) :
    hmStep o c cs st i = Except.ok ⟨dropMissing st.rows i,
      st.actions ++ [DCAction.removedRows (cs.getD i "") "critical_column"
        (missingAt st.rows i)]⟩ := by
  simp only [hmStep]
  rw [if_neg hm, if_pos hc]

/-- Low-threshold branch of handle_missing_values: at most 5 percent of the
original row count missing. -/
theorem hmStep_lowThreshold (hm : missingAt st.rows i ≠ 0) (hc : cs.getD i "" ∉ c)
    (hle : ¬ 20 * missingAt st.rows i > o.length) :
    hmStep o c cs st i = Except.ok ⟨dropMissing st.rows i,
      st.actions ++ [DCAction.removedRows (cs.getD i "") "low_threshold"
        (missingAt st.rows i)]⟩ := by
  simp only [hmStep]
  rw [if_neg hm, if_neg hc, if_neg hle]

/-- Numeric fill branch of handle_missing_values. -/
theorem hmStep_fill_numeric (hm : missingAt st.rows i ≠ 0) (hc : cs.getD i "" ∉ c)
    (hgt : 20 * missingAt st.rows i > o.length) (hnum : isNumericCol o i = true) :
    hmStep o c cs st i = Except.ok ⟨(match median (colNums st.rows i) with
        | none => st.rows
        | some q => fillMissing st.rows i (Cell.num q)),
      st.actions ++ [DCAction.filled (cs.getD i "") (missingAt st.rows i) "median"]⟩ := by
  simp only [hmStep]
  rw [if_neg hm, if_neg hc, if_pos hgt, if_pos hnum]

/-- Structure of any successful hmStep: either the column was clean and
nothing happened, or rows were dropped, kept, or filled and exactly one
action named after column i was appended. -/
theorem hmStep_shape (h : hmStep o c cs st i = Except.ok st') :
    (missingAt st.rows i = 0 ∧ st' = st) ∨
    (missingAt st.rows i ≠ 0 ∧
      (st'.rows = dropMissing st.rows i ∨ st'.rows = st.rows ∨
        ∃ v, st'.rows = fillMissing st.rows i v) ∧
      ∃ a, st'.actions = st.actions ++ [a] ∧ DCAction.column a = cs.getD i "") := by
  by_cases h0 : missingAt st.rows i = 0
  · rw [hmStep_of_missing_zero h0] at h
    exact Or.inl ⟨h0, (Except.ok.inj h).symm⟩
  · refine Or.inr ⟨h0, ?_⟩
    by_cases hc : cs.getD i "" ∈ c
    · rw [hmStep_critical h0 hc] at h
      obtain rfl := (Except.ok.inj h).symm
      exact ⟨Or.inl rfl, ⟨_, rfl, rfl⟩⟩
    · by_cases hgt : 20 * missingAt st.rows i > o.length
      · by_cases hnum : isNumericCol o i = true
        · rw [hmStep_fill_numeric h0 hc hgt hnum] at h
          obtain rfl := (Except.ok.inj h).symm
          refine ⟨?_, ⟨_, rfl, rfl⟩⟩
          cases hmed : median (colNums st.rows i) with
          | none => exact Or.inr (Or.inl rfl)
          | some q => exact Or.inr (Or.inr ⟨Cell.num q, rfl⟩)
        · simp only [hmStep] at h
          rw [if_neg h0, if_neg hc, if_pos hgt, if_neg hnum] at h
          cases hmode : modeVal (colVals st.rows i) with
          | none => rw [hmode] at h; exact Except.noConfusion h
          | some v =>
              rw [hmode] at h
              obtain rfl := (Except.ok.inj h).symm
              exact ⟨Or.inr (Or.inr ⟨_, rfl⟩), ⟨_, rfl, rfl⟩⟩
      · rw [hmStep_lowThreshold h0 hc hgt] at h
        obtain rfl := (Except.ok.inj h).symm
        exact ⟨Or.inl rfl, ⟨_, rfl, rfl⟩⟩

/-- A successful hmStep never adds rows. -/
theorem hmStep_rows_le (h : hmStep o c cs st i = Except.ok st') :
    st'.rows.length ≤ st.rows.length := by
  rcases hmStep_shape h with ⟨_, rfl⟩ | ⟨_, hrows, _⟩
  · exact Nat.le_refl _
  · rcases hrows with heq | heq | ⟨v, heq⟩
    · rw [heq]; exact (dropMissing_sublist st.rows i).length_le
    · rw [heq]
    · rw [heq, length_fillMissing]

/-- A successful hmStep never increases any column's null count. -/
theorem hmStep_missingAt_le (h : hmStep o c cs st i = Except.ok st') (j : Nat) :
    missingAt st'.rows j ≤ missingAt st.rows j := by
  rcases hmStep_shape h with ⟨_, rfl⟩ | ⟨_, hrows, _⟩
  · exact Nat.le_refl _
  · rcases hrows with heq | heq | ⟨v, heq⟩
    · rw [heq]; exact missingAt_sublist_le (dropMissing_sublist st.rows i) j
    · rw [heq]
    · rw [heq]; exact missingAt_fillMissing_le st.rows i v j

/-- Every surviving row keeps the width of some previous row. -/
theorem hmStep_rowlens (h : hmStep o c cs st i = Except.ok st') :
    ∀ r' ∈ st'.rows, ∃ r ∈ st.rows, r'.length = r.length := by
  intro r' hr'
  rcases hmStep_shape h with ⟨_, rfl⟩ | ⟨_, hrows, _⟩
  · exact ⟨r', hr', rfl⟩
  · rcases hrows with heq | heq | ⟨v, heq⟩
    · rw [heq] at hr'
      exact ⟨r', (dropMissing_sublist st.rows i).mem hr', rfl⟩
    · rw [heq] at hr'; exact ⟨r', hr', rfl⟩
    · rw [heq] at hr'
      rcases List.mem_map.mp hr' with ⟨r, hr, rfl⟩
      refine ⟨r, hr, ?_⟩
      by_cases hcond : (cellAt r i).isNone = true
      · rw [if_pos hcond, List.length_set]
      · rw [if_neg hcond]

end HmStepLemmas

section SrvStepLemmas

variable {o : List Row} {c cs : List String} {st st' : SrvState} {i : Nat}

/-- A column with no live nulls is skipped by the server resolver. -/
theorem srvStep_of_missing_zero (h0 : missingAt st.rows i = 0) :
    srvStep o c cs st i = Except.ok st := by
  simp only [srvStep]
  rw [if_pos h0]

/-- Critical branch of clean_data_temp. -/
theorem srvStep_critical (hm : missingAt st.rows i ≠ 0) (hc : cs.getD i "" ∈ c) :
    srvStep o c cs st i = Except.ok ⟨dropMissing st.rows i,
      st.actions ++ [SrvAction.removedRows (cs.getD i "") (missingAt st.rows i)]⟩ := by
  simp only [srvStep]
  rw [if_neg hm, if_pos hc]

/-- Low-threshold branch of clean_data_temp: at most 5 percent of the LIVE
row count missing. -/
theorem srvStep_lowThreshold (hm : missingAt st.rows i ≠ 0) (hc : cs.getD i "" ∉ c)
    (hle : ¬ 20 * missingAt st.rows i > st.rows.length) :
    srvStep o c cs st i = Except.ok ⟨dropMissing st.rows i,
      st.actions ++ [SrvAction.removedRows (cs.getD i "") (missingAt st.rows i)]⟩ := by
  simp only [srvStep]
  rw [if_neg hm, if_neg hc, if_neg hle]

/-- Numeric fill branch of clean_data_temp. -/
theorem srvStep_fill_numeric (hm : missingAt st.rows i ≠ 0) (hc : cs.getD i "" ∉ c)
    (hgt : 20 * missingAt st.rows i > st.rows.length) (hnum : isNumericCol o i = true) :
    srvStep o c cs st i = Except.ok ⟨(match median (colNums st.rows i) with
        | none => st.rows
        | some q => fillMissing st.rows i (Cell.num q)),
      st.actions ++ [SrvAction.filled (cs.getD i "") "median" (missingAt st.rows i)]⟩ := by
  simp only [srvStep]
  rw [if_neg hm, if_neg hc, if_pos hgt, if_pos hnum]

/-- Structure of any successful srvStep. -/
theorem srvStep_shape (h : srvStep o c cs st i = Except.ok st') :
    (missingAt st.rows i = 0 ∧ st' = st) ∨
    (missingAt st.rows i ≠ 0 ∧
      (st'.rows = dropMissing st.rows i ∨ st'.rows = st.rows ∨
        ∃ v, st'.rows = fillMissing st.rows i v) ∧
      ∃ a, st'.actions = st.actions ++ [a] ∧ SrvAction.column a = cs.getD i "") := by
  by_cases h0 : missingAt st.rows i = 0
  · rw [srvStep_of_missing_zero h0] at h
    exact Or.inl ⟨h0, (Except.ok.inj h).symm⟩
  · refine Or.inr ⟨h0, ?_⟩
    by_cases hc : cs.getD i "" ∈ c
    · rw [srvStep_critical h0 hc] at h
      obtain rfl := (Except.ok.inj h).symm
      exact ⟨Or.inl rfl, ⟨_, rfl, rfl⟩⟩
    · by_cases hgt : 20 * missingAt st.rows i > st.rows.length
      · by_cases hnum : isNumericCol o i = true
        · rw [srvStep_fill_numeric h0 hc hgt hnum] at h
          obtain rfl := (Except.ok.inj h).symm
          refine ⟨?_, ⟨_, rfl, rfl⟩⟩
          cases hmed : median (colNums st.rows i) with
          | none => exact Or.inr (Or.inl rfl)
          | some q => exact Or.inr (Or.inr ⟨Cell.num q, rfl⟩)
        · simp only [srvStep] at h
          rw [if_neg h0, if_neg hc, if_pos hgt, if_neg hnum] at h
          cases hmode : modeVal (colVals st.rows i) with
          | none => rw [hmode] at h; exact Except.noConfusion h
          | some v =>
              rw [hmode] at h
              obtain rfl := (Except.ok.inj h).symm
              exact ⟨Or.inr (Or.inr ⟨_, rfl⟩), ⟨_, rfl, rfl⟩⟩
      · rw [srvStep_lowThreshold h0 hc hgt] at h
        obtain rfl := (Except.ok.inj h).symm
        exact ⟨Or.inl rfl, ⟨_, rfl, rfl⟩⟩

/-- A successful srvStep never adds rows. -/
theorem srvStep_rows_le (h : srvStep o c cs st i = Except.ok st') :
    st'.rows.length ≤ st.rows.length := by
  rcases srvStep_shape h with ⟨_, rfl⟩ | ⟨_, hrows, _⟩
  · exact Nat.le_refl _
  · rcases hrows with heq | heq | ⟨v, heq⟩
    · rw [heq]; exact (dropMissing_sublist st.rows i).length_le
    · rw [heq]
    · rw [heq, length_fillMissing]

end SrvStepLemmas

section RunLemmas

variable {o : List Row} {c cs : List String}

theorem hmRun_nil (est : Except String DCState) : hmRun o c cs est [] = est := rfl

theorem hmRun_cons (st : DCState) (i : Nat) (idxs : List Nat) :
    hmRun o c cs (Except.ok st) (i :: idxs) =
      hmRun o c cs (hmStep o c cs st i) idxs := rfl

theorem hmRun_error (e : String) :
    ∀ idxs : List Nat, hmRun o c cs (Except.error e) idxs = Except.error e := by
  intro idxs
  induction idxs with
  | nil => rfl
  | cons i idxs ih => exact ih

theorem hmRun_append (est : Except String DCState) (l₁ l₂ : List Nat) :
    hmRun o c cs est (l₁ ++ l₂) = hmRun o c cs (hmRun o c cs est l₁) l₂ := by
  simp [hmRun, List.foldl_append]

/-- Preorder-style invariants transfer along a successful run. -/
theorem hmRun_ok_rel (R : DCState → DCState → Prop)
    (hrefl : ∀ s, R s s)
    (htrans : ∀ a b c', R a b → R b c' → R a c')
    (hstep : ∀ st i st', hmStep o c cs st i = Except.ok st' → R st st') :
    ∀ (idxs : List Nat) (st st' : DCState),
      hmRun o c cs (Except.ok st) idxs = Except.ok st' → R st st' := by
  intro idxs
  induction idxs with
  | nil =>
      intro st st' h
      obtain rfl := Except.ok.inj h
      exact hrefl st
  | cons i idxs ih =>
      intro st st' h
      rw [hmRun_cons] at h
      cases hres : hmStep o c cs st i with
      | error e => rw [hres, hmRun_error] at h; exact Except.noConfusion h
      | ok stmid =>
          rw [hres] at h
          exact htrans st stmid st' (hstep st i stmid hres) (ih stmid st' h)

theorem srvRun_nil (est : Except String SrvState) : srvRun o c cs est [] = est := rfl

theorem srvRun_cons (st : SrvState) (i : Nat) (idxs : List Nat) :
    srvRun o c cs (Except.ok st) (i :: idxs) =
      srvRun o c cs (srvStep o c cs st i) idxs := rfl

theorem srvRun_error (e : String) :
    ∀ idxs : List Nat, srvRun o c cs (Except.error e) idxs = Except.error e := by
  intro idxs
  induction idxs with
  | nil => rfl
  | cons i idxs ih => exact ih

theorem srvRun_append (est : Except String SrvState) (l₁ l₂ : List Nat) :
    srvRun o c cs est (l₁ ++ l₂) = srvRun o c cs (srvRun o c cs est l₁) l₂ := by
  simp [srvRun, List.foldl_append]

/-- Preorder-style invariants transfer along a successful server run. -/
theorem srvRun_ok_rel (R : SrvState → SrvState → Prop)
    (hrefl : ∀ s, R s s)
    (htrans : ∀ a b c', R a b → R b c' → R a c')
    (hstep : ∀ st i st', srvStep o c cs st i = Except.ok st' → R st st') :
    ∀ (idxs : List Nat) (st st' : SrvState),
      srvRun o c cs (Except.ok st) idxs = Except.ok st' → R st st' := by
  intro idxs
  induction idxs with
  | nil =>
      intro st st' h
      obtain rfl := Except.ok.inj h
      exact hrefl st
  | cons i idxs ih =>
      intro st st' h
      rw [srvRun_cons] at h
      cases hres : srvStep o c cs st i with
      | error e => rw [hres, srvRun_error] at h; exact Except.noConfusion h
      | ok stmid =>
          rw [hres] at h
          exact htrans st stmid st' (hstep st i stmid hres) (ih stmid st' h)

end RunLemmas

section TakeHelpers

variable {α : Type}

theorem take_sublist_take_succ :
    ∀ (l : List α) (k : Nat), List.Sublist (l.take k) (l.take (k + 1)) := by
  intro l
  induction l with
  | nil => intro k; rw [List.take_nil, List.take_nil]
  | cons x xs ih =>
      intro k
      cases k with
      | zero => exact List.nil_sublist _
      | succ k => exact (ih k).cons₂ x

theorem take_succ_getD :
    ∀ (l : List α) (k : Nat) (d : α), k < l.length →
      l.take (k + 1) = l.take k ++ [l.getD k d] := by
  intro l
  induction l with
  | nil => intro k d hk; cases hk
  | cons x xs ih =>
      intro k d hk
      cases k with
      | zero => rfl
      | succ k =>
          have hk' : k < xs.length := Nat.lt_of_succ_lt_succ hk
          simp only [List.take_succ_cons, List.cons_append, List.getD]
          rw [ih k d hk']
          rfl

theorem getD_eq_get :
    ∀ (l : List α) (k : Nat) (d : α) (h : k < l.length), l.getD k d = l.get ⟨k, h⟩ := by
  intro l
  induction l with
  | nil => intro k d h; cases h
  | cons x xs ih =>
      intro k d h
      cases k with
      | zero => rfl
      | succ k => exact ih k d (Nat.lt_of_succ_lt_succ h)

end TakeHelpers

/-- Invariants of the handle_missing_values loop over its first k columns:
the recorded column names form a sublist of the first k column names, null
counts only shrink, and a column with no nulls in the parsed input never
acquires an action record (given unambiguous column names). -/
theorem hmRange_actions_inv (o : List Row) (c cs : List String) :
    ∀ k, k ≤ cs.length → ∀ st',
      hmRun o c cs (Except.ok ⟨o, []⟩) (List.range k) = Except.ok st' →
      List.Sublist (st'.actions.map DCAction.column) (cs.take k)
      ∧ (∀ j, missingAt st'.rows j ≤ missingAt o j)
      ∧ (cs.Nodup → ∀ j, j < cs.length → missingAt o j = 0 →
          ∀ a ∈ st'.actions, DCAction.column a ≠ cs.getD j "") := by
  intro k
  induction k with
  | zero =>
      intro _ st' h
      obtain rfl := Except.ok.inj h
      refine ⟨List.nil_sublist _, fun j => Nat.le_refl _, ?_⟩
      intro _ _ _ _ a ha
      cases ha
  | succ k ih =>
      intro hk st' h
      rw [List.range_succ, hmRun_append] at h
      cases hmid : hmRun o c cs (Except.ok ⟨o, []⟩) (List.range k) with
      | error e => rw [hmid, hmRun_error] at h; exact Except.noConfusion h
      | ok stmid =>
          rw [hmid] at h
          have hstep : hmStep o c cs stmid k = Except.ok st' := h
          obtain ⟨ihsub, ihmiss, ihclean⟩ := ih (Nat.le_of_succ_le hk) stmid hmid
          have hklen : k < cs.length := hk
          refine ⟨?_, ?_, ?_⟩
          · rcases hmStep_shape hstep with ⟨_, rfl⟩ | ⟨_, _, ⟨a, hact, hcol⟩⟩
            · exact ihsub.trans (take_sublist_take_succ cs k)
            · rw [hact, List.map_append, List.map_singleton,
                take_succ_getD cs k "" hklen]
              exact ihsub.append (by rw [hcol])
          · intro j
            exact (hmStep_missingAt_le hstep j).trans (ihmiss j)
          · intro hnd j hj hclean a ha
            rcases hmStep_shape hstep with ⟨_, rfl⟩ | ⟨hm0, _, ⟨b, hact, hcol⟩⟩
            · exact ihclean hnd j hj hclean a ha
            · rw [hact] at ha
              rcases List.mem_append.mp ha with ha' | ha'
              · exact ihclean hnd j hj hclean a ha'
              · obtain rfl := List.mem_singleton.mp ha'
                rw [hcol]
                intro heq
                by_cases hkj : k = j
                · subst hkj
                  have hle := ihmiss k
                  rw [hclean] at hle
                  exact hm0 (Nat.le_zero.mp hle)
                · rw [getD_eq_get cs k "" hklen, getD_eq_get cs j "" hj] at heq
                  exact hkj (congrArg Fin.val ((List.Nodup.get_inj_iff hnd).mp heq))

/-- C1, as stated, is false: on rows20 with critical column A, the
data_cleaner.py resolver divides column B's missing count by the original
20 rows (20 * 1 = 20 is not greater than 20, so B is dropped), while the
spec's live-denominator reading divides by the 19 live rows (20 > 19, so B
would be filled by mode). The two passes therefore produce different action
logs on the same input. -/
theorem claim_C1_counterexample :
    (hmPass rows20 ["A"] cols20).toOption.map DCState.actions =
      some [DCAction.removedRows "A" "critical_column" 1,
        DCAction.removedRows "B" "low_threshold" 1]
    ∧ (hmPassLiveSpec rows20 ["A"] cols20).toOption.map DCState.actions =
      some [DCAction.removedRows "A" "critical_column" 1,
        DCAction.filled "B" 1 "mode"]
    ∧ (hmPass rows20 ["A"] cols20).toOption.map DCState.actions ≠
      (hmPassLiveSpec rows20 ["A"] cols20).toOption.map DCState.actions := by
  decide

/-- C1 (amended): the denominator of the 5 percent check differs between the
two resolvers. In data_cleaner.handle_missing_values a non-critical column
with live missing count m is dropped (reason low_threshold) iff
20 * m ≤ len(df), the ORIGINAL pre-pass row count; in the servers'
clean_data_temp it is dropped iff 20 * m ≤ len(df_clean), the LIVE row
count as reduced by earlier columns' drops. -/
theorem claim_C1_amended :
    (∀ (origRows : List Row) (crit cols : List String) (st : DCState) (i : Nat),
      missingAt st.rows i ≠ 0 → cols.getD i "" ∉ crit →
      (hmStep origRows crit cols st i = Except.ok ⟨dropMissing st.rows i,
          st.actions ++ [DCAction.removedRows (cols.getD i "") "low_threshold"
            (missingAt st.rows i)]⟩
        ↔ ¬ 20 * missingAt st.rows i > origRows.length))
    ∧ (∀ (origRows : List Row) (crit cols : List String) (st : SrvState) (i : Nat),
      missingAt st.rows i ≠ 0 → cols.getD i "" ∉ crit →
      (srvStep origRows crit cols st i = Except.ok ⟨dropMissing st.rows i,
          st.actions ++ [SrvAction.removedRows (cols.getD i "")
            (missingAt st.rows i)]⟩
        ↔ ¬ 20 * missingAt st.rows i > st.rows.length)) := by
  constructor
  · intro origRows crit cols st i hm hc
    constructor
    · intro heq hgt
      by_cases hnum : isNumericCol origRows i = true
      · rw [hmStep_fill_numeric hm hc hgt hnum] at heq
        have h2 := congrArg DCState.actions (Except.ok.inj heq)
        simp at h2
      · simp only [hmStep] at heq
        rw [if_neg hm, if_neg hc, if_pos hgt, if_neg hnum] at heq
        cases hmode : modeVal (colVals st.rows i) with
        | none => rw [hmode] at heq; exact Except.noConfusion heq
        | some v =>
            rw [hmode] at heq
            have h2 := congrArg DCState.actions (Except.ok.inj heq)
            simp at h2
    · intro hle
      exact hmStep_lowThreshold hm hc hle
  · intro origRows crit cols st i hm hc
    constructor
    · intro heq hgt
      by_cases hnum : isNumericCol origRows i = true
      · rw [srvStep_fill_numeric hm hc hgt hnum] at heq
        have h2 := congrArg SrvState.actions (Except.ok.inj heq)
        simp at h2
      · simp only [srvStep] at heq
        rw [if_neg hm, if_neg hc, if_pos hgt, if_neg hnum] at heq
        cases hmode : modeVal (colVals st.rows i) with
        | none => rw [hmode] at heq; exact Except.noConfusion heq
        | some v =>
            rw [hmode] at heq
            have h2 := congrArg SrvState.actions (Except.ok.inj heq)
            simp at h2
    · intro hle
      exact srvStep_lowThreshold hm hc hle

/-- Witness for C1 (amended) at a concrete instance: one missing value out
of twenty original rows (exactly 5 percent) is not strictly above the
threshold, so handle_missing_values takes the low_threshold drop branch. -/
theorem claim_C1_amended_witness :
    (missingAt rowsW3 0 ≠ 0 ∧ ("v" : String) ∉ ([] : List String)) ∧
    hmStep rowsW3 [] ["v"] ⟨rowsW3, []⟩ 0 =
      Except.ok ⟨List.replicate 19 [some (Cell.num 1)],
        [DCAction.removedRows "v" "low_threshold" 1]⟩ := by
  refine ⟨⟨by decide, by decide⟩, ?_⟩
  have h := (claim_C1_amended.1 rowsW3 [] ["v"] ⟨rowsW3, []⟩ 0 (by decide)
    (by decide)).mpr (by decide)
  exact h.trans (by decide)

/-- C2: a critical column with at least one live missing value has all rows
with that column missing dropped and one ActionRecord appended with action
removed_rows and reason critical_column, with no condition on the missing
percentage (critical handling precedes the 5 percent rule). The servers'
clean_data_temp drops identically and with the same precedence; its record
shape carries column, action and count but no reason field. -/
theorem claim_C2 :
    (∀ (origRows : List Row) (crit cols : List String) (st : DCState) (i : Nat),
      cols.getD i "" ∈ crit → missingAt st.rows i ≠ 0 →
      hmStep origRows crit cols st i = Except.ok ⟨dropMissing st.rows i,
        st.actions ++ [DCAction.removedRows (cols.getD i "") "critical_column"
          (missingAt st.rows i)]⟩)
    ∧ (∀ (origRows : List Row) (crit cols : List String) (st : SrvState) (i : Nat),
      cols.getD i "" ∈ crit → missingAt st.rows i ≠ 0 →
      srvStep origRows crit cols st i = Except.ok ⟨dropMissing st.rows i,
        st.actions ++ [SrvAction.removedRows (cols.getD i "")
          (missingAt st.rows i)]⟩) := by
  constructor
  · intro origRows crit cols st i hcrit hm
    exact hmStep_critical hm hcrit
  · intro origRows crit cols st i hcrit hm
    exact srvStep_critical hm hcrit

/-- Witness for C2: a critical column missing in 10 of 12 rows (83 percent,
far above the fill threshold) still takes the drop branch. -/
theorem claim_C2_witness :
    (("id" : String) ∈ ["id"] ∧
      missingAt (List.replicate 10 [none] ++ List.replicate 2 [some (Cell.num 7)]) 0 ≠ 0) ∧
    hmStep (List.replicate 10 [none] ++ List.replicate 2 [some (Cell.num 7)]) ["id"] ["id"]
        ⟨List.replicate 10 [none] ++ List.replicate 2 [some (Cell.num 7)], []⟩ 0 =
      Except.ok ⟨List.replicate 2 [some (Cell.num 7)],
        [DCAction.removedRows "id" "critical_column" 10]⟩ := by
  refine ⟨⟨by decide, by decide⟩, ?_⟩
  have h := claim_C2.1 (List.replicate 10 [none] ++ List.replicate 2 [some (Cell.num 7)])
    ["id"] ["id"] ⟨List.replicate 10 [none] ++ List.replicate 2 [some (Cell.num 7)], []⟩ 0
    (by decide) (by decide)
  exact h.trans (by decide)

/-- C3: a non-critical column whose missing fraction is exactly 5 percent
(20 * missing = row count of the respective denominator) takes the drop
branch, in handle_missing_values (denominator: original rows) and in
clean_data_temp (denominator: live rows) alike; filling happens only
strictly above 5 percent. -/
theorem claim_C3 :
    (∀ (origRows : List Row) (crit cols : List String) (st : DCState) (i : Nat),
      missingAt st.rows i ≠ 0 → cols.getD i "" ∉ crit →
      20 * missingAt st.rows i = origRows.length →
      hmStep origRows crit cols st i = Except.ok ⟨dropMissing st.rows i,
        st.actions ++ [DCAction.removedRows (cols.getD i "") "low_threshold"
          (missingAt st.rows i)]⟩)
    ∧ (∀ (origRows : List Row) (crit cols : List String) (st : SrvState) (i : Nat),
      missingAt st.rows i ≠ 0 → cols.getD i "" ∉ crit →
      20 * missingAt st.rows i = st.rows.length →
      srvStep origRows crit cols st i = Except.ok ⟨dropMissing st.rows i,
        st.actions ++ [SrvAction.removedRows (cols.getD i "")
          (missingAt st.rows i)]⟩) := by
  constructor
  · intro origRows crit cols st i hm hc h5
    exact hmStep_lowThreshold hm hc (by omega)
  · intro origRows crit cols st i hm hc h5
    exact srvStep_lowThreshold hm hc (by omega)

/-- Witness for C3: exactly 1 missing value in 20 rows is 5.0 percent and is
dropped with reason low_threshold, not filled. -/
theorem claim_C3_witness :
    (missingAt rowsW3 0 ≠ 0 ∧ ("v" : String) ∉ ([] : List String) ∧
      20 * missingAt rowsW3 0 = rowsW3.length) ∧
    hmStep rowsW3 [] ["v"] ⟨rowsW3, []⟩ 0 =
      Except.ok ⟨List.replicate 19 [some (Cell.num 1)],
        [DCAction.removedRows "v" "low_threshold" 1]⟩ := by
  refine ⟨⟨by decide, by decide, by decide⟩, ?_⟩
  have h := claim_C3.1 rowsW3 [] ["v"] ⟨rowsW3, []⟩ 0 (by decide) (by decide) (by decide)
  exact h.trans (by decide)

/-- C4: clean_duplicates keeps exactly the first occurrence of every row
value: the survivors are a sublist of the input (original order), contain
no duplicate row (rows compare as whole values, null equal to null, which
is equality of Row), have the same membership as the input, the reported
count is original minus surviving, and appending a row keeps it iff its
value is new. -/
theorem claim_C4 (d : Dataset) :
    clean_duplicates (some d) = ⟨"success", some ⟨d.cols, drop_duplicates d.rows⟩,
      d.rows.length - (drop_duplicates d.rows).length, none⟩
    ∧ List.Sublist (drop_duplicates d.rows) d.rows
    ∧ (drop_duplicates d.rows).Nodup
    ∧ (∀ r : Row, r ∈ drop_duplicates d.rows ↔ r ∈ d.rows)
    ∧ (∀ (rows : List Row) (r : Row), drop_duplicates (rows ++ [r]) =
        if r ∈ rows then drop_duplicates rows else drop_duplicates rows ++ [r]) := by
  refine ⟨rfl, dropDupsAux_sublist d.rows [], dropDupsAux_nodup d.rows [], ?_, ?_⟩
  · intro r
    rw [drop_duplicates, mem_dropDupsAux]
    simp
  · intro rows r
    rw [drop_duplicates, drop_duplicates, dropDupsAux_append]
    simp

/-- C5: deduplication is idempotent: on an already deduplicated dataset it
removes zero rows and returns the same dataset. -/
theorem claim_C5 (d : Dataset) :
    clean_duplicates (some ⟨d.cols, drop_duplicates d.rows⟩) =
      ⟨"success", some ⟨d.cols, drop_duplicates d.rows⟩, 0, none⟩
    ∧ (∀ rows : List Row, drop_duplicates (drop_duplicates rows) = drop_duplicates rows) := by
  constructor
  · simp only [clean_duplicates]
    rw [drop_duplicates_idem, Nat.sub_self]
  · intro rows
    exact drop_duplicates_idem rows

/-- C6: row counts never grow. In clean_data_temp's summary, final_rows is
at most original_rows (which is the parsed row count); a successful
handle_missing_values never returns more rows than it was given; filling
preserves the row count exactly; dropping and deduplicating never add rows. -/
theorem claim_C6 :
    (∀ (d : Dataset) (crit : Option (List String)) (s : SrvSummary),
      (clean_data_temp (some d) crit).summary = some s →
      s.final_rows ≤ s.original_rows ∧ s.original_rows = d.rows.length)
    ∧ (∀ (d : Dataset) (crit : Option (List String)) (res : HMResult) (cd : Dataset),
      handle_missing_values (some d) crit = Except.ok res →
      res.cleaned_data = some cd → cd.rows.length ≤ d.rows.length)
    ∧ (∀ (rows : List Row) (i : Nat) (v : Cell), (fillMissing rows i v).length = rows.length)
    ∧ (∀ (rows : List Row) (i : Nat), (dropMissing rows i).length ≤ rows.length)
    ∧ (∀ rows : List Row, (drop_duplicates rows).length ≤ rows.length) := by
  refine ⟨?_, ?_, ?_, ?_, ?_⟩
  · intro d crit s h
    simp only [clean_data_temp] at h
    cases hp : srvPass d.rows (crit.getD []) d.cols (drop_duplicates d.rows) with
    | error e => rw [hp] at h; exact Option.noConfusion h
    | ok st =>
        rw [hp] at h
        obtain rfl := Option.some.inj h
        have hrun : srvRun d.rows (crit.getD []) d.cols
            (Except.ok ⟨drop_duplicates d.rows, []⟩) (List.range d.cols.length) =
            Except.ok st := hp
        have hle : st.rows.length ≤ (drop_duplicates d.rows).length :=
          srvRun_ok_rel (fun a b => b.rows.length ≤ a.rows.length)
            (fun _ => Nat.le_refl _)
            (fun _ _ _ hab hbc => Nat.le_trans hbc hab)
            (fun _ _ _ hs => srvStep_rows_le hs)
            (List.range d.cols.length) _ st hrun
        exact ⟨Nat.le_trans hle (dropDupsAux_sublist d.rows []).length_le, rfl⟩
  · intro d crit res cd h hcd
    simp only [handle_missing_values] at h
    cases hp : hmPass d.rows (crit.getD []) d.cols with
    | error e => rw [hp] at h; exact Except.noConfusion h
    | ok st =>
        rw [hp] at h
        obtain rfl := Except.ok.inj h
        obtain rfl := Option.some.inj hcd
        have hrun : hmRun d.rows (crit.getD []) d.cols
            (Except.ok ⟨d.rows, []⟩) (List.range d.cols.length) = Except.ok st := hp
        exact hmRun_ok_rel (fun a b => b.rows.length ≤ a.rows.length)
          (fun _ => Nat.le_refl _)
          (fun _ _ _ hab hbc => Nat.le_trans hbc hab)
          (fun _ _ _ hs => hmStep_rows_le hs)
          (List.range d.cols.length) _ st hrun
  · intro rows i v
    exact length_fillMissing rows i v
  · intro rows i
    exact (dropMissing_sublist rows i).length_le
  · intro rows
    exact (dropDupsAux_sublist rows []).length_le

/-- Witness for C6 on the one-row dataset dW6: the summary is computed and
final_rows is bounded by original_rows. -/
theorem claim_C6_witness :
    (clean_data_temp (some dW6) none).summary = some ⟨1, 1, 0, []⟩ ∧
    ((⟨1, 1, 0, []⟩ : SrvSummary).final_rows ≤ (⟨1, 1, 0, []⟩ : SrvSummary).original_rows ∧
      (⟨1, 1, 0, []⟩ : SrvSummary).original_rows = dW6.rows.length) := by
  refine ⟨by decide, ?_⟩
  exact claim_C6.1 dW6 none ⟨1, 1, 0, []⟩ (by decide)

/-- C7, as stated, is false: in dC7 column B has one missing value in the
parsed input, yet handle_missing_values with critical column A produces no
ActionRecord for B, because dropping the rows with missing A also removed
the only row where B was missing, so B's live null count is zero when it is
visited. -/
theorem claim_C7_counterexample :
    missingAt dC7.rows 1 ≠ 0
    ∧ handle_missing_values (some dC7) (some ["A"]) = Except.ok resC7
    ∧ (resC7.actions_taken.filter
        (fun a => DCAction.column a = dC7.cols.getD 1 "")).length = 0 := by
  decide

/-- C7 (amended): every column name in the ActionRecords is an input column
and no column yields more than one record; a column with zero missing
values in the parsed input yields none; but the record-producing condition
is the column's LIVE missing count at visit time (a column whose input
nulls were all removed by earlier drops yields no record): a step appends
no record exactly when the live missing count is zero. -/
theorem claim_C7_amended :
    (∀ (d : Dataset) (crit : Option (List String)) (res : HMResult),
      handle_missing_values (some d) crit = Except.ok res → d.cols.Nodup →
      (∀ a ∈ res.actions_taken, DCAction.column a ∈ d.cols)
      ∧ (res.actions_taken.map DCAction.column).Nodup
      ∧ (∀ j, j < d.cols.length → missingAt d.rows j = 0 →
          ∀ a ∈ res.actions_taken, DCAction.column a ≠ d.cols.getD j ""))
    ∧ (∀ (origRows : List Row) (crit cols : List String) (st st' : DCState) (i : Nat),
      hmStep origRows crit cols st i = Except.ok st' →
      (st'.actions = st.actions ↔ missingAt st.rows i = 0)) := by
  constructor
  · intro d crit res h hnd
    simp only [handle_missing_values] at h
    cases hp : hmPass d.rows (crit.getD []) d.cols with
    | error e => rw [hp] at h; exact Except.noConfusion h
    | ok st =>
        rw [hp] at h
        obtain rfl := Except.ok.inj h
        have hrun : hmRun d.rows (crit.getD []) d.cols
            (Except.ok ⟨d.rows, []⟩) (List.range d.cols.length) = Except.ok st := hp
        obtain ⟨hsub, _, hclean⟩ :=
          hmRange_actions_inv d.rows (crit.getD []) d.cols d.cols.length
            (Nat.le_refl _) st hrun
        rw [List.take_length] at hsub
        refine ⟨?_, ?_, ?_⟩
        · intro a ha
          exact hsub.subset (List.mem_map_of_mem DCAction.column ha)
        · exact hsub.nodup hnd
        · exact hclean hnd
  · intro origRows crit cols st st' i h
    constructor
    · intro heq
      rcases hmStep_shape h with ⟨h0, _⟩ | ⟨_, _, ⟨a, hact, _⟩⟩
      · exact h0
      · exfalso
        rw [hact] at heq
        have := congrArg List.length heq
        simp at this
    · intro h0
      rw [hmStep_of_missing_zero h0] at h
      obtain rfl := Except.ok.inj h
      rfl

/-- Witness for C7 (amended) on dC7: the single record names an input
column and no column is recorded twice. -/
theorem claim_C7_witness :
    (handle_missing_values (some dC7) (some ["A"]) = Except.ok resC7 ∧ dC7.cols.Nodup) ∧
    (∀ a ∈ resC7.actions_taken, DCAction.column a ∈ dC7.cols) ∧
    (resC7.actions_taken.map DCAction.column).Nodup := by
  refine ⟨⟨by decide, by decide⟩, ?_, ?_⟩
  · exact (claim_C7_amended.1 dC7 (some ["A"]) resC7 (by decide) (by decide)).1
  · exact (claim_C7_amended.1 dC7 (some ["A"]) resC7 (by decide) (by decide)).2.1

/-- C8 is right about the intent but the code breaks it: on dC8 with
critical column A, handle_missing_values reaches mode()[0] on a non-numeric
column whose surviving values are all missing; pandas mode() is then empty
and the indexing raises an uncaught KeyError instead of producing the
uniform error dictionary. -/
theorem claim_C8_bug :
    handle_missing_values (some dC8) (some ["A"]) = Except.error "KeyError: 0" := by
  decide

/-- C9: cleaning touches only rows, never columns: a successful
handle_missing_values returns a dataset with exactly the input's column
list (same names, same order) and every surviving row keeps the width of
some input row; clean_duplicates likewise returns the input columns and a
subset of the input rows. -/
theorem claim_C9 :
    (∀ (d : Dataset) (crit : Option (List String)) (res : HMResult) (cd : Dataset),
      handle_missing_values (some d) crit = Except.ok res →
      res.cleaned_data = some cd →
      cd.cols = d.cols ∧ ∀ r' ∈ cd.rows, ∃ r ∈ d.rows, r'.length = r.length)
    ∧ (∀ d : Dataset, (clean_duplicates (some d)).cleaned_data =
        some ⟨d.cols, drop_duplicates d.rows⟩
        ∧ ∀ r' ∈ drop_duplicates d.rows, r' ∈ d.rows) := by
  constructor
  · intro d crit res cd h hcd
    simp only [handle_missing_values] at h
    cases hp : hmPass d.rows (crit.getD []) d.cols with
    | error e => rw [hp] at h; exact Except.noConfusion h
    | ok st =>
        rw [hp] at h
        obtain rfl := Except.ok.inj h
        obtain rfl := Option.some.inj hcd
        have hrun : hmRun d.rows (crit.getD []) d.cols
            (Except.ok ⟨d.rows, []⟩) (List.range d.cols.length) = Except.ok st := hp
        refine ⟨rfl, ?_⟩
        exact hmRun_ok_rel
          (fun a b => ∀ r' ∈ b.rows, ∃ r ∈ a.rows, r'.length = r.length)
          (fun _ r' hr' => ⟨r', hr', rfl⟩)
          (fun _ _ _ hab hbc r' hr' => by
            obtain ⟨rm, hrm, he⟩ := hbc r' hr'
            obtain ⟨r0, hr0, he0⟩ := hab rm hrm
            exact ⟨r0, hr0, he.trans he0⟩)
          (fun _ _ _ hs => hmStep_rowlens hs)
          (List.range d.cols.length) _ st hrun
  · intro d
    refine ⟨rfl, ?_⟩
    intro r' hr'
    exact ((mem_dropDupsAux d.rows [] r').mp hr').1

/-- Witness for C9 on dW6: the cleaned dataset has the same header and rows
of the input widths. -/
theorem claim_C9_witness :
    (handle_missing_values (some dW6) none = Except.ok resW9 ∧
      resW9.cleaned_data = some dW6) ∧
    (dW6.cols = dW6.cols ∧ ∀ r' ∈ dW6.rows, ∃ r ∈ dW6.rows, r'.length = r.length) := by
  refine ⟨⟨by decide, by decide⟩, ?_⟩
  exact claim_C9.1 dW6 none resW9 dW6 (by decide) (by decide)

/-- C10: a non-critical numeric column that is entirely missing when
visited, with missing fraction above the threshold, is "filled" with an
undefined median: the rows come back unchanged (every cell of the column
still null), yet an ActionRecord filled/median counting all the column's
missing cells is appended. -/
theorem claim_C10 (origRows : List Row) (crit cols : List String) (st : DCState)
    (i : Nat) (hnc : cols.getD i "" ∉ crit)
    (hall : missingAt st.rows i = st.rows.length)
    (hne : missingAt st.rows i ≠ 0)
    (hnum : isNumericCol origRows i = true)
    (hgt : 20 * missingAt st.rows i > origRows.length) :
    hmStep origRows crit cols st i = Except.ok ⟨st.rows,
      st.actions ++ [DCAction.filled (cols.getD i "") (missingAt st.rows i) "median"]⟩
    ∧ ∀ r ∈ st.rows, cellAt r i = none := by
  have hcells := cellAt_eq_none_of_missingAt_eq_length hall
  refine ⟨?_, hcells⟩
  rw [hmStep_fill_numeric hne hnc hgt hnum]
  have hmed : median (colNums st.rows i) = none := by
    rw [colNums_eq_nil hcells]
    exact median_nil
  rw [hmed]

/-- Witness for C10: a single all-missing numeric column of two rows is
reported filled by median with count 2 while both cells stay null. -/
theorem claim_C10_witness :
    (("x" : String) ∉ ([] : List String) ∧
      missingAt [[none], [none]] 0 = ([[none], [none]] : List Row).length ∧
      missingAt [[none], [none]] 0 ≠ 0 ∧
      isNumericCol [[none], [none]] 0 = true ∧
      20 * missingAt [[none], [none]] 0 > ([[none], [none]] : List Row).length) ∧
    hmStep [[none], [none]] [] ["x"] ⟨[[none], [none]], []⟩ 0 =
      Except.ok ⟨[[none], [none]], [DCAction.filled "x" 2 "median"]⟩ := by
  refine ⟨⟨by decide, by decide, by decide, by decide, by decide⟩, ?_⟩
  have h := claim_C10 [[none], [none]] [] ["x"] ⟨[[none], [none]], []⟩ 0
    (by decide) (by decide) (by decide) (by decide) (by decide)
  exact h.1.trans (by decide)
